import Mathlib

/-!
Shallow embedding of the chat-context subsystem of the `chat-with-youtube`
repository (`src/lib/chat-context.ts`, `src/lib/youtube.ts`,
`src/app/api/chat/route.ts`), together with proofs about it.

Modelling conventions:
* JavaScript strings are Lean `String`s; `s.length` counts characters.
* JavaScript numbers holding seconds/durations are rationals (`ℚ`);
  `Date.getTime()` timestamps are integers (`ℤ`, milliseconds).
* Token counts, list lengths and budgets are `ℕ`.
* Numeric fields that arrive as strings and are immediately parsed with
  `parseFloat` are modelled by the rational value the string denotes.
-/

namespace CWY

/-- Message roles of the OpenAI context messages (`'system' | 'user' | 'assistant'`). -/
inductive Role where
  | system
  | user
  | assistant
deriving DecidableEq

/-- The transient `{ role, content }` projection sent to the language model. -/
structure ContextMessage where
  role : Role
  content : String
deriving DecidableEq

/-- `chat-context.ts` line 7: `MAX_CONTEXT_MESSAGES = 20`. -/
def MAX_CONTEXT_MESSAGES : ℕ := 20

/-- `chat-context.ts` line 12: `MAX_TRANSCRIPT_CHARS = 50000`. -/
def MAX_TRANSCRIPT_CHARS : ℕ := 50000

/-- `chat-context.ts` `estimateTokenCount`: `Math.ceil(content.length / 4)`. -/
def estimateTokenCount (content : String) : ℕ :=
  (content.length + 3) / 4

/-- `chat-context.ts` `calculateContextTokens`: `reduce((total, msg) => total + estimateTokenCount(msg.content), 0)`. -/
def calculateContextTokens (messages : List ContextMessage) : ℕ :=
  messages.foldl (fun total msg => total + estimateTokenCount msg.content) 0

/-- The `while` loop of `trimContextToTokenLimit` (`chat-context.ts` lines 131-134):
repeatedly drop the head while `systemTokens + tokens of the list > maxTokens`
and more than one conversation message remains. -/
def trimContextLoop (systemTokens maxTokens : ℕ) : List ContextMessage → List ContextMessage
  | [] => []
  | msg :: rest =>
    if systemTokens + calculateContextTokens (msg :: rest) > maxTokens ∧ (msg :: rest).length > 1 then
      trimContextLoop systemTokens maxTokens rest
    else
      msg :: rest

/-- `chat-context.ts` `trimContextToTokenLimit` (lines 113-137).  The empty-list
arm of the match is unreachable: an empty list has estimated total `0 ≤ maxTokens`,
so it is returned by the first branch (the JS code would only dereference
`messages[0]` when the total exceeds the budget). -/
def trimContextToTokenLimit (messages : List ContextMessage) (maxTokens : ℕ) : List ContextMessage :=
  if calculateContextTokens messages ≤ maxTokens then
    messages
  else
    match messages with
    | [] => []
    | systemMessage :: conversationMessages =>
      systemMessage ::
        trimContextLoop (estimateTokenCount systemMessage.content) maxTokens conversationMessages

/-- `types/index.ts` `TranscriptItem` (`{start, dur, text}`); the `start`/`dur`
strings are modelled by the numeric values `parseFloat` extracts from them. -/
structure TranscriptItem where
  start : ℚ
  dur : ℚ
  text : String
deriving DecidableEq

/-- JavaScript `%` on numbers: `a - b * trunc(a / b)` (truncated division). -/
def jsMod (a b : ℚ) : ℚ :=
  a - b * (if 0 ≤ a / b then (⌊a / b⌋ : ℤ) else (⌈a / b⌉ : ℤ))

/-- JavaScript `String.prototype.padStart(n, c)`. -/
def padStart (s : String) (n : ℕ) (c : Char) : String :=
  String.mk (List.replicate (n - s.length) c) ++ s

/-- One line of the rendered transcript (`chat-context.ts` lines 21-27):
`[M:SS] text` with `M = Math.floor(start / 60)` and `SS = Math.floor(start % 60)`
padded to two digits. -/
def transcriptLine (item : TranscriptItem) : String :=
  let startTime := item.start
  let minutes : ℤ := ⌊startTime / 60⌋
  let seconds : ℤ := ⌊jsMod startTime 60⌋
  "[" ++ toString minutes ++ ":" ++ padStart (toString seconds) 2 '0' ++ "] " ++ item.text

/-- `chat-context.ts` `formatTranscriptContext` (lines 19-38): join the
timestamped lines with newlines; if the result exceeds `MAX_TRANSCRIPT_CHARS`,
cut it at `MAX_TRANSCRIPT_CHARS - 100` characters (`substring(0, truncatePoint)`)
and append the truncation marker. -/
def formatTranscriptContext (transcript : List TranscriptItem) : String :=
  let formattedTranscript := String.intercalate "\n" (transcript.map transcriptLine)
  if formattedTranscript.length > MAX_TRANSCRIPT_CHARS then
    String.mk (formattedTranscript.toList.take (MAX_TRANSCRIPT_CHARS - 100)) ++
      "\n\n[... transcript truncated for length ...]"
  else
    formattedTranscript

/-- `openai.ts` `OPENAI_CONFIG.SYSTEM_PROMPT` (the apostrophe is written as the
escape `\x27`; the first line ends with a space before the newline, as in the
source). -/
def SYSTEM_PROMPT : String :=
  "You are an AI assistant that helps users understand and discuss YouTube videos based on their transcripts. \n" ++
  "\nYour capabilities:\n" ++
  "- Answer questions about the video content\n" ++
  "- Summarize key points from the transcript\n" ++
  "- Explain complex topics mentioned in the video\n" ++
  "- Provide timestamps for specific topics when possible\n" ++
  "- Help users find relevant information within the video\n" ++
  "\nGuidelines:\n" ++
  "- Base your responses strictly on the provided transcript\n" ++
  "- If information isn\x27t in the transcript, clearly state that\n" ++
  "- Provide specific quotes when relevant\n" ++
  "- Be helpful, accurate, and conversational\n" ++
  "- If asked about timestamps, reference the transcript timing when available"

/-- `types/index.ts` `ChatMessage`; `timestamp` is the `Date` value in
milliseconds. -/
structure ChatMessage where
  id : String
  role : Role
  content : String
  timestamp : ℤ
  videoId : Option String
  videoTitle : Option String
deriving DecidableEq

/-- `types/index.ts` `ChatSession`; `createdAt`/`updatedAt` are `Date` values in
milliseconds. -/
structure ChatSession where
  id : String
  videoId : String
  videoTitle : String
  videoUrl : String
  transcript : List TranscriptItem
  messages : List ChatMessage
  createdAt : ℤ
  updatedAt : ℤ
deriving DecidableEq

/-- The system message content assembled by `buildConversationContext`
(`chat-context.ts` lines 56-65). -/
def systemContent (session : ChatSession) : String :=
  SYSTEM_PROMPT ++ "\n\nVideo Information:\n- Title: " ++ session.videoTitle ++
    "\n- URL: " ++ session.videoUrl ++
    "\n- Video ID: " ++ session.videoId ++
    "\n- Total Segments: " ++ toString session.transcript.length ++
    "\n\nTranscript:\n" ++ formatTranscriptContext session.transcript

/-- The `{role: msg.role, content: msg.content}` projection of a stored message
(`chat-context.ts` lines 76-79). -/
def roleContent (msg : ChatMessage) : ContextMessage :=
  ⟨msg.role, msg.content⟩

/-- `chat-context.ts` `buildConversationContext` (lines 46-84):
optional system message, then `session.messages.slice(-MAX_CONTEXT_MESSAGES)`
projected to `{role, content}`.  `slice(-n)` on a list of length `len` is
`drop (len - n)` (all of the list when `len ≤ n`). -/
def buildConversationContext (session : ChatSession) (includeSystemPrompt : Bool) :
    List ContextMessage :=
  let systemPart : List ContextMessage :=
    if includeSystemPrompt then [⟨Role.system, systemContent session⟩] else []
  let recentMessages :=
    (session.messages.drop (session.messages.length - MAX_CONTEXT_MESSAGES)).map roleContent
  systemPart ++ recentMessages

/-- Modelled from the spec wording of the context-builder contract: the system
message first, followed by the most recent `MAX_CONTEXT_MESSAGES` stored
messages in original chronological order (expressed independently of the
implementation, via reverse/take/reverse). -/
def specContext (session : ChatSession) : List ContextMessage :=
  ⟨Role.system, systemContent session⟩ ::
    ((session.messages.reverse.take MAX_CONTEXT_MESSAGES).reverse.map roleContent)

/-- `route.ts` lines 202-212: the user message of a chat turn is pushed onto
`session.messages`; `session.updatedAt` is not touched at this point. -/
def appendUserMessage (session : ChatSession) (msg : ChatMessage) : ChatSession :=
  { session with messages := session.messages ++ [msg] }

/-- `route.ts` lines 244-255: after a successful completion the assistant
message is pushed and `session.updatedAt` is set to the current time. -/
def appendAssistantMessage (session : ChatSession) (msg : ChatMessage) (now : ℤ) : ChatSession :=
  { session with messages := session.messages ++ [msg], updatedAt := now }

/-- `chat-context.ts` `cleanupOldSessions` (lines 259-275): delete every session
whose age `now - updatedAt` exceeds `maxAge` (default 24h), count the deletions.
The store (a JS `Map`) is modelled as an association list in iteration order. -/
def cleanupOldSessions (sessions : List (String × ChatSession)) (now maxAge : ℤ) :
    List (String × ChatSession) × ℕ :=
  match sessions with
  | [] => ([], 0)
  | entry :: rest =>
    let previous := cleanupOldSessions rest now maxAge
    if now - entry.2.updatedAt > maxAge then (previous.1, previous.2 + 1)
    else (entry :: previous.1, previous.2)

/-- Does the pattern (first argument) start the text (second argument)? -/
def strStart : List Char → List Char → Bool
  | [], _ => true
  | _ :: _, [] => false
  | p :: ps, c :: cs => p = c && strStart ps cs

/-- JavaScript `text.includes(pat)`: does `pat` occur somewhere in `text`? -/
def strFind (pat : List Char) : List Char → Bool
  | [] => strStart pat []
  | c :: cs => strStart pat (c :: cs) || strFind pat cs

/-- The number of matches of `text.match(new RegExp(word, 'g'))`
(`chat-context.ts` line 166) for a word with no regex metacharacters: greedy
left-to-right, non-overlapping occurrences.  (The source builds a regular
expression from the raw query token; for tokens that contain no regex
metacharacters — the only case the proofs below rely on — this is literal
substring matching.) -/
def countMatches (pat : List Char) : List Char → ℕ
  | [] => 0
  | c :: rest =>
    if strStart pat (c :: rest) then 1 + countMatches pat (rest.drop (pat.length - 1))
    else countMatches pat rest
termination_by text => text.length
decreasing_by
  · simp [List.length_drop]; omega
  · simp

/-- One segment with its score and original index (`chat-context.ts` lines
160-176). -/
structure ScoredSegment where
  segment : TranscriptItem
  score : ℕ
  index : ℕ
deriving DecidableEq

/-- The score of one segment (`chat-context.ts` lines 161-175): for every query
word the number of global-regex matches in the lowercased segment text, plus 5
when the whole lowercased query occurs in it. -/
def scoreSegment (queryWords : List String) (queryLower : String) (segmentText : String) : ℕ :=
  let segLower := (segmentText.toLower).toList
  let keywordScore := queryWords.foldl (fun score word => score + countMatches word.toList segLower) 0
  keywordScore + (if strFind queryLower.toList segLower then 5 else 0)

/-- The query tokenisation of `chat-context.ts` lines 151-152: lowercase, split
on whitespace, keep tokens of length `> 2`.  (JS `split(/\s+/)` collapses
whitespace runs and can produce empty fragments at the start; splitting on
single whitespace characters produces the same list once length-`≤ 2` tokens,
empty fragments included, are filtered out.) -/
def queryTokens (queryLower : String) : List String :=
  (queryLower.split (fun c => c.isWhitespace)).filter (fun w => w.length > 2)

/-- The `scoredSegments` array of `chat-context.ts` lines 160-176:
`transcript.map((segment, index) => {segment, score, index})`. -/
def scoredSegments (query : String) (transcript : List TranscriptItem) : List ScoredSegment :=
  let queryLower := query.toLower
  let queryWords := queryTokens queryLower
  transcript.enum.map (fun p => ⟨p.2, scoreSegment queryWords queryLower p.2.text, p.1⟩)

/-- `chat-context.ts` `findRelevantTranscriptSegments` (lines 146-185): with no
meaningful query token, the first `maxSegments` segments; otherwise score, keep
positives, sort by descending score, take `maxSegments`, re-sort by original
index, project to the segment. -/
def findRelevantTranscriptSegments (query : String) (transcript : List TranscriptItem)
    (maxSegments : ℕ) : List TranscriptItem :=
  let queryLower := query.toLower
  let queryWords := queryTokens queryLower
  if queryWords.isEmpty then
    transcript.take maxSegments
  else
    (((((scoredSegments query transcript).filter (fun s => s.score > 0)).mergeSort
        (fun a b => b.score ≤ a.score)).take maxSegments).mergeSort
        (fun a b => a.index ≤ b.index)).map (fun s => s.segment)

/-- Modelled from the claim wording for the relevance score: for each query
token the number of ALL (possibly overlapping) case-insensitive substring
occurrences — starting positions at which the token occurs — plus a flat bonus
of 5 for a whole-phrase match. -/
def specClaimScore (query : String) (segmentText : String) : ℕ :=
  let queryLower := query.toLower
  let queryWords := queryTokens queryLower
  let segLower := (segmentText.toLower).toList
  (queryWords.map (fun w =>
      ((List.range segLower.length).filter (fun i => strStart w.toList (segLower.drop i))).length)).sum +
    (if strFind queryLower.toList segLower then 5 else 0)

/-- The relevance-score formula with non-overlapping, leftmost-first occurrence
counting (the amended reading of the claim), written as a sum over the query
tokens. -/
def specAmendedScore (query : String) (segmentText : String) : ℕ :=
  let queryLower := query.toLower
  let queryWords := queryTokens queryLower
  let segLower := (segmentText.toLower).toList
  (queryWords.map (fun w => countMatches w.toList segLower)).sum +
    (if strFind queryLower.toList segLower then 5 else 0)

/-- Raw `SubtitleItem` from the caption scraper (`{start, dur, text}`); the
numeric fields are the values `parseFloat` extracts. -/
structure RawSubtitleItem where
  start : ℚ
  dur : ℚ
  text : String
deriving DecidableEq

/-- `youtube.ts` `FormattedTranscriptItem`; the source field `end` is named
`endVal` here (`end` is a Lean keyword). -/
structure FormattedTranscriptItem where
  start : ℚ
  endVal : ℚ
  duration : ℚ
  text : String
  startTime : String
  endTime : String
deriving DecidableEq

/-- JavaScript `Number.prototype.toFixed(3)` for the exact (non-negative,
representable) inputs used here: round to the nearest thousandth and print with
exactly three decimals. -/
def toFixed3 (q : ℚ) : String :=
  let ms : ℤ := round (q * 1000)
  toString (ms / 1000) ++ "." ++ padStart (toString (ms % 1000)) 3 '0'

/-- `youtube.ts` `formatTime` (lines 89-98): `HH:MM:SS.mmm` when at least one
hour, otherwise `MM:SS.mmm`, components zero-padded (`padStart(2,'0')` /
`padStart(6,'0')` for the seconds field). -/
def formatTime (seconds : ℚ) : String :=
  let hours : ℤ := ⌊seconds / 3600⌋
  let minutes : ℤ := ⌊jsMod seconds 3600 / 60⌋
  let secs : ℚ := jsMod seconds 60
  if hours > 0 then
    padStart (toString hours) 2 '0' ++ ":" ++ padStart (toString minutes) 2 '0' ++ ":" ++
      padStart (toFixed3 secs) 6 '0'
  else
    padStart (toString minutes) 2 '0' ++ ":" ++ padStart (toFixed3 secs) 6 '0'

/-- `text.replace(/\n/g, ' ')`: every newline becomes a space. -/
def collapseNewlines (s : String) : String :=
  String.mk (s.toList.map (fun c => if c = '\n' then ' ' else c))

/-- `youtube.ts` `formatTranscriptData` (lines 105-120). -/
def formatTranscriptData (rawTranscript : List RawSubtitleItem) : List FormattedTranscriptItem :=
  rawTranscript.map (fun item =>
    let start := item.start
    let duration := item.dur
    let endVal := start + duration
    { start := start
      endVal := endVal
      duration := duration
      text := (collapseNewlines item.text).trim
      startTime := formatTime start
      endTime := formatTime endVal })

/-- `youtube.ts` `ResponseFormat`. -/
inductive ResponseFormat where
  | detailed
  | simple
  | textOnly
  | srt
  | vtt
  | segments
deriving DecidableEq

/-- The `{text, start, duration}` projection of the `simple` format. -/
structure SimpleItem where
  text : String
  start : ℚ
  duration : ℚ
deriving DecidableEq

/-- One element of the `segments` format. -/
structure SegmentItem where
  id : ℕ
  start : ℚ
  endVal : ℚ
  duration : ℚ
  text : String
  wordCount : ℕ
deriving DecidableEq

/-- The union of the shapes `formatTranscriptOutput` can return (the source
function returns `any`). -/
inductive TranscriptOutput where
  | str (s : String)
  | simple (items : List SimpleItem)
  | segments (items : List SegmentItem)
  | detailed (items : List FormattedTranscriptItem)
deriving DecidableEq

/-- `s.replace('.', ',')` on a string: only the first occurrence is replaced. -/
def replaceFirstChar (c d : Char) : List Char → List Char
  | [] => []
  | x :: xs => if x = c then d :: xs else x :: replaceFirstChar c d xs

/-- `startTime.replace('.', ',')` as used by the `srt` branch. -/
def dotToComma (s : String) : String :=
  String.mk (replaceFirstChar '.' ',' s.toList)

/-- One `srt` block (`youtube.ts` line 142): 1-based index line, time line with
comma decimal separators, text line, trailing newline. -/
def srtBlock (index : ℕ) (item : FormattedTranscriptItem) : String :=
  toString (index + 1) ++ "\n" ++ dotToComma item.startTime ++ " --> " ++
    dotToComma item.endTime ++ "\n" ++ item.text ++ "\n"

/-- `youtube.ts` `formatTranscriptOutput` (lines 128-166). -/
def formatTranscriptOutput (transcript : List FormattedTranscriptItem) :
    ResponseFormat → TranscriptOutput
  | ResponseFormat.textOnly =>
    TranscriptOutput.str (String.intercalate " " (transcript.map (fun item => item.text)))
  | ResponseFormat.simple =>
    TranscriptOutput.simple (transcript.map (fun item => ⟨item.text, item.start, item.duration⟩))
  | ResponseFormat.srt =>
    TranscriptOutput.str
      (String.intercalate "\n" (transcript.enum.map (fun p => srtBlock p.1 p.2)))
  | ResponseFormat.vtt =>
    TranscriptOutput.str ("WEBVTT\n\n" ++
      String.intercalate "\n" (transcript.map (fun item =>
        item.startTime ++ " --> " ++ item.endTime ++ "\n" ++ item.text ++ "\n")))
  | ResponseFormat.segments =>
    TranscriptOutput.segments (transcript.enum.map (fun p =>
      ⟨p.1 + 1, p.2.start, p.2.endVal, p.2.duration, p.2.text,
        (p.2.text.split (fun c => c = ' ')).length⟩))
  | ResponseFormat.detailed =>
    TranscriptOutput.detailed transcript

/-! Concrete sample inputs used to instantiate the theorems below. -/

/-- A system message estimated at 1 token (4 characters). -/
def sampleSystemMsg : ContextMessage := ⟨Role.system, "aaaa"⟩

/-- A conversation message estimated at 10 tokens (40 characters). -/
def sampleUserCtxMsg : ContextMessage := ⟨Role.user, "bbbbbbbbbbbbbbbbbbbbbbbbbbbbbbbbbbbbbbbb"⟩

/-- A second conversation message estimated at 1 token. -/
def sampleShortCtxMsg : ContextMessage := ⟨Role.user, "cccc"⟩

/-- A transcript segment whose text is `"aaaa"`. -/
def sampleSegment : TranscriptItem := ⟨0, 0, "aaaa"⟩

/-- The two-segment transcript of the formatting example. -/
def sampleRawTranscript : List RawSubtitleItem := [⟨0, 2, "hello"⟩, ⟨2, 3, "world"⟩]

/-- A stored chat message. -/
def sampleStoredMsg : ChatMessage :=
  { id := "m1", role := Role.user, content := "hi", timestamp := 5,
    videoId := some "v", videoTitle := some "t" }

/-- A stored assistant message. -/
def sampleAssistantMsg : ChatMessage :=
  { id := "m2", role := Role.assistant, content := "hello there", timestamp := 6,
    videoId := some "v", videoTitle := some "t" }

/-- A session with an empty message log and `updatedAt = 0`. -/
def sampleSession : ChatSession :=
  { id := "s1", videoId := "v", videoTitle := "t", videoUrl := "u",
    transcript := [], messages := [], createdAt := 0, updatedAt := 0 }

/-- A session holding 25 stored messages. -/
def sampleSession25 : ChatSession :=
  { sampleSession with messages := List.replicate 25 sampleStoredMsg }

/-! ## Properties of the token budgeter -/

theorem foldlTokens_eq (l : List ContextMessage) :
    ∀ a : ℕ, l.foldl (fun total msg => total + estimateTokenCount msg.content) a =
      a + l.foldl (fun total msg => total + estimateTokenCount msg.content) 0 := by
  induction l with
  | nil => simp
  | cons m l ih =>
    intro a
    rw [List.foldl_cons, List.foldl_cons, ih (a + estimateTokenCount m.content),
      ih (0 + estimateTokenCount m.content)]
    omega

theorem calculateContextTokens_cons (m : ContextMessage) (l : List ContextMessage) :
    calculateContextTokens (m :: l) = estimateTokenCount m.content + calculateContextTokens l := by
  show List.foldl _ 0 (m :: l) = _
  rw [List.foldl_cons, foldlTokens_eq]
  show 0 + estimateTokenCount m.content + calculateContextTokens l =
    estimateTokenCount m.content + calculateContextTokens l
  omega

theorem trimContextLoop_suffix (s mx : ℕ) (l : List ContextMessage) :
    trimContextLoop s mx l <:+ l := by
  induction l with
  | nil => simp [trimContextLoop]
  | cons m rest ih =>
    rw [trimContextLoop]
    split
    · exact ih.trans (List.suffix_cons m rest)
    · exact List.suffix_refl _

theorem trimContextLoop_of_short (s mx : ℕ) (l : List ContextMessage) (h : l.length ≤ 1) :
    trimContextLoop s mx l = l := by
  match l with
  | [] => simp [trimContextLoop]
  | [m] => rw [trimContextLoop]; simp
  | m :: r :: rs => simp at h

theorem trimContextLoop_bound (s mx : ℕ) (l : List ContextMessage)
    (h : s + calculateContextTokens (l.drop (l.length - 1)) ≤ mx) :
    s + calculateContextTokens (trimContextLoop s mx l) ≤ mx := by
  induction l with
  | nil => simpa [trimContextLoop] using h
  | cons m rest ih =>
    rw [trimContextLoop]
    split
    · next hcond =>
      match rest, hcond with
      | r :: rs, hcond =>
        apply ih
        have hdrop : (m :: r :: rs).drop ((m :: r :: rs).length - 1) =
            (r :: rs).drop ((r :: rs).length - 1) := by
          simp [List.length_cons]
        rw [hdrop] at h
        exact h
    · next hcond =>
      by_cases ht : s + calculateContextTokens (m :: rest) ≤ mx
      · exact ht
      · match rest with
        | [] => simpa using h
        | r :: rs => exact absurd ⟨by omega, by simp⟩ hcond

theorem trimContextLoop_post (s mx : ℕ) (l : List ContextMessage) :
    s + calculateContextTokens (trimContextLoop s mx l) ≤ mx ∨
      (trimContextLoop s mx l).length ≤ 1 := by
  induction l with
  | nil => right; simp [trimContextLoop]
  | cons m rest ih =>
    rw [trimContextLoop]
    split
    · exact ih
    · next hcond =>
      by_cases ht : s + calculateContextTokens (m :: rest) ≤ mx
      · exact Or.inl ht
      · right
        have hlen : ¬ ((m :: rest).length > 1) := fun hB => hcond ⟨by omega, hB⟩
        omega

theorem trim_of_le {messages : List ContextMessage} {mx : ℕ}
    (h : calculateContextTokens messages ≤ mx) :
    trimContextToTokenLimit messages mx = messages := by
  simp [trimContextToTokenLimit, h]

theorem trim_of_gt {sys : ContextMessage} {conv : List ContextMessage} {mx : ℕ}
    (h : ¬ calculateContextTokens (sys :: conv) ≤ mx) :
    trimContextToTokenLimit (sys :: conv) mx =
      sys :: trimContextLoop (estimateTokenCount sys.content) mx conv := by
  simp [trimContextToTokenLimit, h]

/-- C1, counterexample: for `[system (1 token), user (10 tokens)]` and budget 5,
a total `≤ 5` is achievable by removing only non-system messages (the system
message alone costs 1), yet `trimContextToTokenLimit` returns a list whose
total is 11 — the loop never removes the last conversation message. -/
theorem claim1_counterexample :
    calculateContextTokens (trimContextToTokenLimit [sampleSystemMsg, sampleUserCtxMsg] 5) > 5 ∧
      calculateContextTokens [sampleSystemMsg] ≤ 5 := by
  decide

/-- C1 (amended): for every message list headed by the system message and every
budget, whenever a total `≤ maxTokens` is achievable by removing only
non-system messages while retaining the most recent one, the function returns
a list whose total estimated token count is `≤ maxTokens`, and the system
message is never removed (it stays first). -/
theorem claim1_trim_budget (systemMessage : ContextMessage)
    (conversation : List ContextMessage) (maxTokens : ℕ)
    (h : estimateTokenCount systemMessage.content +
        calculateContextTokens (conversation.drop (conversation.length - 1)) ≤ maxTokens) :
    calculateContextTokens
        (trimContextToTokenLimit (systemMessage :: conversation) maxTokens) ≤ maxTokens ∧
      (trimContextToTokenLimit (systemMessage :: conversation) maxTokens).head? =
        some systemMessage := by
  by_cases hle : calculateContextTokens (systemMessage :: conversation) ≤ maxTokens
  · rw [trim_of_le hle]
    exact ⟨hle, rfl⟩
  · rw [trim_of_gt hle]
    refine ⟨?_, rfl⟩
    rw [calculateContextTokens_cons]
    exact trimContextLoop_bound _ _ _ h

/-- Witness for C1 (amended) at the concrete input
`[system (1 token), user (10 tokens)]` with budget 12. -/
theorem claim1_witness :
    estimateTokenCount sampleSystemMsg.content +
        calculateContextTokens ([sampleUserCtxMsg].drop ([sampleUserCtxMsg].length - 1)) ≤ 12 ∧
      calculateContextTokens
        (trimContextToTokenLimit [sampleSystemMsg, sampleUserCtxMsg] 12) ≤ 12 :=
  ⟨by decide, (claim1_trim_budget sampleSystemMsg [sampleUserCtxMsg] 12 (by decide)).1⟩

/-- C5: `trimContextToTokenLimit` is idempotent — applying it to its own output
with the same budget returns that output unchanged. -/
theorem claim5_trim_idempotent (messages : List ContextMessage) (maxTokens : ℕ) :
    trimContextToTokenLimit (trimContextToTokenLimit messages maxTokens) maxTokens =
      trimContextToTokenLimit messages maxTokens := by
  by_cases h : calculateContextTokens messages ≤ maxTokens
  · rw [trim_of_le h, trim_of_le h]
  · match messages with
    | [] =>
      exact absurd (show calculateContextTokens [] ≤ maxTokens from Nat.zero_le _) h
    | sys :: conv =>
      rw [trim_of_gt h]
      by_cases h2 : calculateContextTokens
          (sys :: trimContextLoop (estimateTokenCount sys.content) maxTokens conv) ≤ maxTokens
      · rw [trim_of_le h2]
      · rw [trim_of_gt h2]
        rcases trimContextLoop_post (estimateTokenCount sys.content) maxTokens conv with hb | hs
        · exfalso
          apply h2
          rw [calculateContextTokens_cons]
          exact hb
        · rw [trimContextLoop_of_short _ _ _ hs]

/-- C9: for every non-empty message list and budget, the output of
`trimContextToTokenLimit` is the first input message followed by a contiguous
suffix of the remaining input messages, each retained message unchanged; in
particular the output is never empty. -/
theorem claim9_trim_frame (first : ContextMessage) (rest : List ContextMessage) (maxTokens : ℕ) :
    ∃ tail, trimContextToTokenLimit (first :: rest) maxTokens = first :: tail ∧ tail <:+ rest := by
  by_cases h : calculateContextTokens (first :: rest) ≤ maxTokens
  · exact ⟨rest, trim_of_le h, List.suffix_refl rest⟩
  · exact ⟨_, trim_of_gt h, trimContextLoop_suffix _ _ _⟩

/-! ## Session lifecycle -/

/-- C2, counterexample: appending the user message of a chat turn
(`route.ts` line 212) grows the message log but leaves `updatedAt` unchanged —
in particular it does not become the turn's timestamp (5). -/
theorem claim2_counterexample :
    (appendUserMessage sampleSession sampleStoredMsg).messages.length =
        sampleSession.messages.length + 1 ∧
      (appendUserMessage sampleSession sampleStoredMsg).updatedAt = sampleSession.updatedAt ∧
      (appendUserMessage sampleSession sampleStoredMsg).updatedAt ≠ sampleStoredMsg.timestamp := by
  decide

/-- C2 (amended): `updatedAt` is set only when the assistant reply of a
successful chat turn is appended; appending the user message alone leaves it
unchanged.  Provided the turn's time is not earlier than the session's current
`updatedAt`, the update is monotonically non-decreasing. -/
theorem claim2_updatedAt (session : ChatSession) (userMsg assistantMsg : ChatMessage) (now : ℤ)
    (h : session.updatedAt ≤ now) :
    (appendUserMessage session userMsg).updatedAt = session.updatedAt ∧
      (appendAssistantMessage (appendUserMessage session userMsg) assistantMsg now).updatedAt =
        now ∧
      session.updatedAt ≤
        (appendAssistantMessage (appendUserMessage session userMsg) assistantMsg now).updatedAt :=
  ⟨rfl, rfl, h⟩

/-- Witness for C2 (amended) at a concrete session and turn time 5. -/
theorem claim2_witness :
    sampleSession.updatedAt ≤ 5 ∧
      (appendAssistantMessage (appendUserMessage sampleSession sampleStoredMsg)
          sampleAssistantMsg 5).updatedAt = 5 :=
  ⟨by decide,
    (claim2_updatedAt sampleSession sampleStoredMsg sampleAssistantMsg 5 (by decide)).2.1⟩

/-- C8: the reaper deletes exactly the sessions whose `updatedAt` is strictly
older than `now - maxAge`, keeps every other entry unchanged and in order, and
returns the number of deletions. -/
theorem claim8_cleanup (sessions : List (String × ChatSession)) (now maxAge : ℤ) :
    (cleanupOldSessions sessions now maxAge).1 =
        sessions.filter (fun e => ¬ (e.2.updatedAt < now - maxAge)) ∧
      (cleanupOldSessions sessions now maxAge).2 =
        (sessions.filter (fun e => e.2.updatedAt < now - maxAge)).length := by
  induction sessions with
  | nil => exact ⟨rfl, rfl⟩
  | cons entry rest ih =>
    by_cases hc : now - entry.2.updatedAt > maxAge
    · have h1 : entry.2.updatedAt < now - maxAge := by omega
      simp [cleanupOldSessions, hc, h1, ih.1, ih.2, List.filter_cons]
      rw [if_neg (by omega)]
    · have h1 : ¬ entry.2.updatedAt < now - maxAge := by omega
      simp [cleanupOldSessions, hc, h1, ih.1, ih.2, List.filter_cons]
      rw [if_pos (by omega)]

/-! ## Context builder -/

/-- C6: with `includeSystemPrompt = true` the built context is exactly one
system message followed by the most recent `MAX_CONTEXT_MESSAGES = 20` stored
messages (all of them when fewer exist) projected to `{role, content}` in
original order; for a session with 25 stored messages this is the system
message plus exactly the last 20 (21 messages in total). -/
theorem claim6_buildContext :
    (∀ session : ChatSession, buildConversationContext session true = specContext session) ∧
      (buildConversationContext sampleSession25 true).length = 1 + MAX_CONTEXT_MESSAGES := by
  constructor
  · intro session
    simp only [buildConversationContext, specContext, List.take_reverse, List.reverse_reverse,
      if_pos, List.singleton_append]
  · decide

/-- C10: the rendered transcript context never exceeds the 50,000-character
ceiling: an over-long rendering is cut to 49,900 characters and the appended
truncation marker (43 characters) keeps the result under the ceiling. -/
theorem claim10_transcript_bound (transcript : List TranscriptItem) :
    (formatTranscriptContext transcript).length ≤ MAX_TRANSCRIPT_CHARS := by
  simp only [formatTranscriptContext]
  by_cases h : (String.intercalate "\n" (transcript.map transcriptLine)).length >
      MAX_TRANSCRIPT_CHARS
  · rw [if_pos h, String.length_append]
    have h1 : (String.mk ((String.intercalate "\n"
        (transcript.map transcriptLine)).toList.take (MAX_TRANSCRIPT_CHARS - 100))).length ≤
        MAX_TRANSCRIPT_CHARS - 100 := by
      show (List.take _ _).length ≤ _
      simp [List.length_take]
    have h2 : ("\n\n[... transcript truncated for length ...]" : String).length = 43 := by
      decide
    rw [h2]
    simp only [MAX_TRANSCRIPT_CHARS] at h1 ⊢
    omega
  · rw [if_neg h]
    omega

/-! ## Relevance scorer -/

theorem foldlAddCount_eq (f : String → ℕ) (l : List String) :
    ∀ a : ℕ, l.foldl (fun acc w => acc + f w) a = a + (l.map f).sum := by
  induction l with
  | nil => simp
  | cons w l ih =>
    intro a
    rw [List.foldl_cons, ih, List.map_cons, List.sum_cons]
    omega

theorem scoreSegment_eq (queryWords : List String) (queryLower segText : String) :
    scoreSegment queryWords queryLower segText =
      (queryWords.map (fun w => countMatches w.toList (segText.toLower).toList)).sum +
        (if strFind queryLower.toList (segText.toLower).toList then 5 else 0) := by
  simp only [scoreSegment]
  rw [foldlAddCount_eq]
  omega

/-- C3, counterexample: for the query `"aaa"` and a segment with text `"aaaa"`,
the score the code computes is 6 (one non-overlapping regex match of `aaa`,
plus the phrase bonus 5), while the claimed formula — counting all substring
occurrences, here 2 — gives 7. -/
theorem claim3_counterexample :
    (scoredSegments "aaa" [sampleSegment]).map (fun s => s.score) = [6] ∧
      specClaimScore "aaa" sampleSegment.text = 7 ∧
      (scoredSegments "aaa" [sampleSegment]).map (fun s => s.score) ≠
        [sampleSegment].map (fun seg => specClaimScore "aaa" seg.text) := by
  with_unfolding_all decide

/-- C3 (amended): for every query and segment, the relevance score computed by
`findRelevantTranscriptSegments` (via `scoredSegments`) equals the sum over the
query tokens of the number of non-overlapping, leftmost-first case-insensitive
occurrences of the token in the segment text, plus a flat bonus of 5 when the
whole lowercased query occurs in the lowercased segment text. -/
theorem claim3_scores (query : String) (transcript : List TranscriptItem) :
    (scoredSegments query transcript).map (fun s => s.score) =
      transcript.map (fun seg => specAmendedScore query seg.text) := by
  simp only [scoredSegments, List.map_map]
  have hcomp : ((fun s : ScoredSegment => s.score) ∘ fun p : ℕ × TranscriptItem =>
      (⟨p.2, scoreSegment (queryTokens query.toLower) query.toLower p.2.text, p.1⟩ :
        ScoredSegment)) =
      (fun seg => scoreSegment (queryTokens query.toLower) query.toLower seg.text) ∘
        Prod.snd := rfl
  rw [hcomp, ← List.map_map, List.enum_map_snd]
  refine List.map_congr_left (fun seg _ => ?_)
  rw [scoreSegment_eq]
  rfl

/-! ## Transcript formatter -/

/-- C4, counterexample: for the example transcript the first srt block's time
line is `00:00,000 --> 00:02,000` (`formatTime` omits the hour components for
times under an hour), so the srt output does not begin with the block the
claim states (`1`, `00:00:00,000 --> 00:00:02,000`, `hello`). -/
theorem claim4_counterexample :
    formatTranscriptOutput (formatTranscriptData sampleRawTranscript) ResponseFormat.srt =
      TranscriptOutput.str
        ("1\n00:00,000 --> 00:02,000\nhello\n\n2\n00:02,000 --> 00:05,000\nworld\n") ∧
      strStart ("1\n00:00:00,000 --> 00:00:02,000\nhello\n").toList
        ("1\n00:00,000 --> 00:02,000\nhello\n\n2\n00:02,000 --> 00:05,000\nworld\n").toList =
        false := by
  with_unfolding_all decide

/-- C4 (amended): for the transcript
`[{start:0,duration:2,text:"hello"},{start:2,duration:3,text:"world"}]`,
`text_only` rendering yields exactly `"hello world"`, and the first srt block
is index line `1`, time line `00:00,000 --> 00:02,000` (minutes:seconds,millis
— no hour components under an hour), and text line `hello`. -/
theorem claim4_formats :
    formatTranscriptOutput (formatTranscriptData sampleRawTranscript) ResponseFormat.textOnly =
        TranscriptOutput.str "hello world" ∧
      formatTranscriptOutput (formatTranscriptData sampleRawTranscript) ResponseFormat.srt =
        TranscriptOutput.str ("1\n00:00,000 --> 00:02,000\nhello\n" ++ "\n" ++
          "2\n00:02,000 --> 00:05,000\nworld\n") := by
  with_unfolding_all decide

theorem pairwise_fst_shift {α : Type} :
    ∀ (ps : List (ℕ × α)), (∀ p ∈ ps, 1 ≤ p.1) →
      ps.Pairwise (fun a b => a.1 < b.1) →
      (ps.map (fun p => (p.1 - 1, p.2))).Pairwise (fun a b => a.1 < b.1)
  | [], _, _ => by simp
  | p :: ps, hpos, h => by
    rw [List.pairwise_cons] at h
    rw [List.map_cons, List.pairwise_cons]
    refine ⟨?_, pairwise_fst_shift ps (fun q hq => hpos q (List.mem_cons_of_mem _ hq)) h.2⟩
    intro q' hq'
    obtain ⟨q, hq, rfl⟩ := List.mem_map.mp hq'
    have h1 := h.1 q hq
    have h2 := hpos p (List.mem_cons_self _ _)
    show p.1 - 1 < q.1 - 1
    omega

theorem mapSnd_sublist {α : Type} :
    ∀ (t : List α) (ps : List (ℕ × α)),
      (∀ p ∈ ps, t[p.1]? = some p.2) → ps.Pairwise (fun a b => a.1 < b.1) →
      (ps.map Prod.snd).Sublist t := by
  intro t
  induction t with
  | nil =>
    intro ps h _
    cases ps with
    | nil => simp
    | cons p ps => exact absurd (h p (List.mem_cons_self _ _)) (by simp)
  | cons a t ih =>
    intro ps hmem hpw
    cases ps with
    | nil => simp
    | cons p ps' =>
      rw [List.pairwise_cons] at hpw
      by_cases h0 : p.1 = 0
      · have hpa : a = p.2 := by
          have hh := hmem p (List.mem_cons_self _ _)
          rw [h0] at hh
          simpa using hh
        have hpos : ∀ q ∈ ps', 1 ≤ q.1 := fun q hq => by
          have := hpw.1 q hq
          omega
        have hsub : ((ps'.map (fun q => (q.1 - 1, q.2))).map Prod.snd).Sublist t := by
          apply ih
          · intro q' hq'
            obtain ⟨q, hq, rfl⟩ := List.mem_map.mp hq'
            have hmq := hmem q (List.mem_cons_of_mem _ hq)
            obtain ⟨k, hk⟩ : ∃ k, q.1 = k + 1 := ⟨q.1 - 1, by have := hpos q hq; omega⟩
            rw [hk] at hmq
            show t[q.1 - 1]? = some q.2
            simpa [hk] using hmq
          · exact pairwise_fst_shift ps' hpos hpw.2
        rw [List.map_map] at hsub
        have hcomp : (Prod.snd ∘ fun q : ℕ × α => (q.1 - 1, q.2)) = Prod.snd := rfl
        rw [hcomp] at hsub
        rw [List.map_cons, hpa]
        exact hsub.cons₂ p.2
      · have hpos : ∀ q ∈ p :: ps', 1 ≤ q.1 := by
          intro q hq
          rcases List.mem_cons.mp hq with hq' | hq'
          · rw [hq']; omega
          · have := hpw.1 q hq'; omega
        have hsub : (((p :: ps').map (fun q => (q.1 - 1, q.2))).map Prod.snd).Sublist t := by
          apply ih
          · intro q' hq'
            obtain ⟨q, hq, rfl⟩ := List.mem_map.mp hq'
            have hmq := hmem q hq
            obtain ⟨k, hk⟩ : ∃ k, q.1 = k + 1 := ⟨q.1 - 1, by have := hpos q hq; omega⟩
            rw [hk] at hmq
            show t[q.1 - 1]? = some q.2
            simpa [hk] using hmq
          · exact pairwise_fst_shift _ hpos (List.pairwise_cons.mpr hpw)
        rw [List.map_map] at hsub
        have hcomp : (Prod.snd ∘ fun q : ℕ × α => (q.1 - 1, q.2)) = Prod.snd := rfl
        rw [hcomp] at hsub
        exact hsub.cons a

/-- C7: `findRelevantTranscriptSegments` returns at most `maxSegments` segments
and the result is a sub-sequence of the input transcript (original chronological
order, no reordering, no duplication); it may return zero segments when nothing
scores positively even though the transcript is non-empty. -/
theorem claim7_relevance :
    (∀ (query : String) (transcript : List TranscriptItem) (maxSegments : ℕ),
        (findRelevantTranscriptSegments query transcript maxSegments).length ≤ maxSegments ∧
          (findRelevantTranscriptSegments query transcript maxSegments).Sublist transcript) ∧
      (∃ (query : String) (transcript : List TranscriptItem) (maxSegments : ℕ),
        transcript ≠ [] ∧ 0 < maxSegments ∧
          findRelevantTranscriptSegments query transcript maxSegments = []) := by
  constructor
  · intro query transcript maxSegments
    simp only [findRelevantTranscriptSegments]
    by_cases hempty : (queryTokens query.toLower).isEmpty
    · rw [if_pos hempty]
      exact ⟨List.length_take_le _ _, List.take_sublist _ _⟩
    · rw [if_neg hempty]
      set scored := scoredSegments query transcript with hscored
      set l1 := scored.filter (fun s => s.score > 0) with hl1
      set l2 := l1.mergeSort (fun a b => b.score ≤ a.score) with hl2
      set l3 := l2.take maxSegments with hl3
      set l4 := l3.mergeSort (fun a b => a.index ≤ b.index) with hl4
      have hperm4 : l4.Perm l3 := List.mergeSort_perm l3 _
      have hperm2 : l2.Perm l1 := List.mergeSort_perm l1 _
      constructor
      · rw [List.length_map, hperm4.length_eq]
        exact List.length_take_le _ _
      · have hmem4 : ∀ x ∈ l4, transcript[x.index]? = some x.segment := by
          intro x hx
          have hx3 : x ∈ l3 := hperm4.mem_iff.mp hx
          have hx2 : x ∈ l2 := List.mem_of_mem_take hx3
          have hx1 : x ∈ l1 := hperm2.mem_iff.mp hx2
          have hx0 : x ∈ scored := List.mem_of_mem_filter hx1
          rw [hscored] at hx0
          simp only [scoredSegments] at hx0
          obtain ⟨p, hp, rfl⟩ := List.mem_map.mp hx0
          exact List.mem_enum_iff_getElem?.mp hp
        have hnodup0 : (scored.map (fun s => s.index)).Nodup := by
          rw [hscored]
          simp only [scoredSegments, List.map_map]
          have hcomp : ((fun s : ScoredSegment => s.index) ∘
              fun p : ℕ × TranscriptItem =>
                (⟨p.2, scoreSegment (queryTokens query.toLower) query.toLower p.2.text, p.1⟩ :
                  ScoredSegment)) = Prod.fst := rfl
          rw [hcomp, List.enum_map_fst]
          exact List.nodup_range _
        have hnodup1 : (l1.map (fun s => s.index)).Nodup :=
          ((List.filter_sublist scored).map _).nodup hnodup0
        have hnodup2 : (l2.map (fun s => s.index)).Nodup :=
          ((hperm2.map _).nodup_iff).mpr hnodup1
        have hnodup3 : (l3.map (fun s => s.index)).Nodup :=
          ((List.take_sublist maxSegments l2).map _).nodup hnodup2
        have hnodup4 : (l4.map (fun s => s.index)).Nodup :=
          ((hperm4.map _).nodup_iff).mpr hnodup3
        have hsorted : l4.Pairwise (fun a b => a.index ≤ b.index) := by
          have htrans : ∀ a b c : ScoredSegment,
              (fun a b : ScoredSegment => decide (a.index ≤ b.index)) a b = true →
              (fun a b : ScoredSegment => decide (a.index ≤ b.index)) b c = true →
              (fun a b : ScoredSegment => decide (a.index ≤ b.index)) a c = true := by
            intro a b c hab hbc
            simp only [decide_eq_true_eq] at hab hbc ⊢
            omega
          have htotal : ∀ a b : ScoredSegment,
              ((fun a b : ScoredSegment => decide (a.index ≤ b.index)) a b ||
                (fun a b : ScoredSegment => decide (a.index ≤ b.index)) b a) = true := by
            intro a b
            simp only [Bool.or_eq_true, decide_eq_true_eq]
            omega
          have := List.sorted_mergeSort htrans htotal l3
          exact this.imp (fun h => by simpa using h)
        have hne : l4.Pairwise (fun a b => a.index ≠ b.index) := by
          have : (l4.map (fun s => s.index)).Pairwise (fun a b => a ≠ b) := hnodup4
          exact List.pairwise_map.mp this
        have hstrict : l4.Pairwise (fun a b => a.index < b.index) :=
          (hsorted.and hne).imp (fun h => lt_of_le_of_ne h.1 h.2)
        have hfinal := mapSnd_sublist transcript (l4.map (fun s => (s.index, s.segment)))
          (by
            intro p hp
            obtain ⟨x, hx, rfl⟩ := List.mem_map.mp hp
            exact hmem4 x hx)
          (by
            rw [List.pairwise_map]
            exact hstrict)
        rw [List.map_map] at hfinal
        have hcomp : (Prod.snd ∘ fun s : ScoredSegment => (s.index, s.segment)) =
            fun s : ScoredSegment => s.segment := rfl
        rw [hcomp] at hfinal
        exact hfinal
  · refine ⟨"zzz", [sampleSegment], 5, by decide, by decide, ?_⟩
    with_unfolding_all decide

end CWY
